import Mathlib

/-!
Verification of the driver code of wayland-debug (`main.py`).

The repository source under consideration is the driver `main.py`: the
functions `interactive_shell`, `parse_messages`, `piped_input_main`,
`file_input_main` and `main`.  The session, matcher and trace-decoder
modules it imports are external to the source tree, so they are modelled
at their boundary: the decoder's output is a list of already-decoded
records, the session is an abstract record of operations together with a
state type, and the matcher module is an abstract record of operations.
The driver itself is embedded faithfully, statement by statement.
-/

namespace WaylandDebug

/-- A decoded Message Record: timestamp, message name, direction (sent),
object reference and arguments, as produced by the external decoder.
`parse.file` yields pairs of a connection id and such a record. -/
structure Msg where
  timestamp : Nat
  name : String
  sent : Bool
  obj : Nat
  args : List String
deriving DecidableEq, Repr

/-- A call the driver makes into the session API.  The driver's observable
behaviour is the ordered list of these calls. -/
inductive Call where
  | openC (conn : Nat) (is_server : Option Bool) (time : Nat)
  | msg (conn : Nat) (m : Msg)
  | closeC (conn : Nat) (time : Nat)
  | command (cmd : String)
deriving DecidableEq, Repr

/-- Modelled from the spec: the session module is not under the source
tree, so the session is abstracted as a state type `σ` together with the
operations the driver invokes (`message`, `open_connection`,
`close_connection`, `command`) and the pure state queries `stopped` and
`quit` used by the driving loop. -/
structure SessionOps (σ : Type) where
  message : σ → Nat → Msg → σ
  open_connection : σ → Nat → Option Bool → Nat → σ
  close_connection : σ → Nat → Nat → σ
  stopped : σ → Bool
  quit : σ → Bool
  command : σ → String → σ

/-- The `is_server` hint computed in the body of `parse_messages` for a
connection's first message: `not msg.sent` when the name is
`get_registry`, otherwise `None`. -/
def roleHint (m : Msg) : Option Bool :=
  if m.name = "get_registry" then some (!m.sent) else none

/-- Result of the message-consuming loop of `parse_messages`: final
session state, the `known_connections` keys in insertion order, the final
`last_time`, and the trace of session calls, each paired with the session
state at the moment of the call. -/
structure LoopResult (σ : Type) where
  state : σ
  known : List Nat
  last_time : Nat
  trace : List (σ × Call)

/-- The `for conn_id, msg in parse.file(...)` loop of `parse_messages`:
updates `last_time` to the record's timestamp, opens the connection (with
the `get_registry` role hint) first time its id is seen, then delivers
the record via `session.message`. -/
def pmLoop (ops : SessionOps σ) :
    List (Nat × Msg) → σ → List Nat → Nat → LoopResult σ
  | [], s, known, lt => ⟨s, known, lt, []⟩
  | (c, m) :: rest, s, known, _ =>
    if c ∈ known then
      let r := pmLoop ops rest (ops.message s c m) known m.timestamp
      ⟨r.state, r.known, r.last_time, (s, Call.msg c m) :: r.trace⟩
    else
      let s1 := ops.open_connection s c (roleHint m) m.timestamp
      let r := pmLoop ops rest (ops.message s1 c m) (known ++ [c]) m.timestamp
      ⟨r.state, r.known, r.last_time,
        (s, Call.openC c (roleHint m) m.timestamp) :: (s1, Call.msg c m) :: r.trace⟩

/-- The closing loop of `parse_messages`: `for conn_id in
known_connections.keys(): session.close_connection(conn_id, last_time)`. -/
def pmClose (ops : SessionOps σ) :
    List Nat → σ → Nat → σ × List (σ × Call)
  | [], s, _ => (s, [])
  | c :: rest, s, lt =>
    let r := pmClose ops rest (ops.close_connection s c lt) lt
    (r.1, (s, Call.closeC c lt) :: r.2)

/-- `interactive_shell`: `while session.stopped(): if session.quit():
break; cmd = input(...); session.command(cmd)`.  The operator's input
lines are modelled as a list; exhausting them ends the loop. -/
def interactive_shell (ops : SessionOps σ) :
    List String → σ → σ × List (σ × Call)
  | [], s => (s, [])
  | cmd :: rest, s =>
    if ops.stopped s then
      if ops.quit s then (s, [])
      else
        let r := interactive_shell ops rest (ops.command s cmd)
        (r.1, (s, Call.command cmd) :: r.2)
    else (s, [])

/-- `parse_messages(session, input_file, allow_shell)`: run the message
loop starting from `known_connections = {}` and `last_time = 0`, close
every known connection at the final `last_time`, then run the interactive
shell when `allow_shell` is set. -/
def parse_messages (ops : SessionOps σ) (s : σ) (records : List (Nat × Msg))
    (allow_shell : Bool) (cmds : List String) : σ × List (σ × Call) :=
  let r := pmLoop ops records s [] 0
  let cl := pmClose ops r.known r.state r.last_time
  if allow_shell then
    let sh := interactive_shell ops cmds cl.1
    (sh.1, r.trace ++ cl.2 ++ sh.2)
  else
    (cl.1, r.trace ++ cl.2)

/-- Projection of a trace entry to a `Session.message` delivery. -/
def callMsg : Call → Option (Nat × Msg)
  | Call.msg c m => some (c, m)
  | _ => none

/-- The sequence of `Session.message` deliveries in a driver trace. -/
def deliveries (tr : List (σ × Call)) : List (Nat × Msg) :=
  tr.filterMap (fun p => callMsg p.2)

/-- The bare calls of a `parse_messages` run, states dropped. -/
def driverCalls (ops : SessionOps σ) (s : σ) (records : List (Nat × Msg))
    (allow_shell : Bool) (cmds : List String) : List Call :=
  (parse_messages ops s records allow_shell cmds).2.map Prod.snd

/-- A session whose operations ignore everything; used to observe the
driver's call sequence in isolation. -/
def unitOps : SessionOps Unit :=
  ⟨fun _ _ _ => (), fun _ _ _ _ => (), fun _ _ _ => (),
   fun _ => false, fun _ => false, fun _ _ => ()⟩

lemma deliveries_append (a b : List (σ × Call)) :
    deliveries (a ++ b) = deliveries a ++ deliveries b := by
  simp [deliveries]

lemma deliveries_pmLoop (ops : SessionOps σ) (records : List (Nat × Msg)) :
    ∀ (s : σ) (known : List Nat) (lt : Nat),
      deliveries (pmLoop ops records s known lt).trace = records := by
  induction records with
  | nil => intro s known lt; simp [pmLoop, deliveries]
  | cons r rest ih =>
    intro s known lt
    obtain ⟨c, m⟩ := r
    by_cases hc : c ∈ known <;>
      simp [pmLoop, hc, deliveries, callMsg] at ih ⊢ <;> exact ih _ _ _

lemma deliveries_pmClose (ops : SessionOps σ) (known : List Nat) :
    ∀ (s : σ) (lt : Nat), deliveries (pmClose ops known s lt).2 = [] := by
  induction known with
  | nil => intro s lt; simp [pmClose, deliveries]
  | cons c rest ih =>
    intro s lt
    simp [pmClose, deliveries, callMsg] at ih ⊢
    exact ih _ _

lemma deliveries_shell (ops : SessionOps σ) (cmds : List String) :
    ∀ (s : σ), deliveries (interactive_shell ops cmds s).2 = [] := by
  induction cmds with
  | nil => intro s; simp [interactive_shell, deliveries]
  | cons cmd rest ih =>
    intro s
    simp only [interactive_shell]
    by_cases hs : ops.stopped s
    · by_cases hq : ops.quit s
      · simp [hs, hq, deliveries]
      · simp [hs, hq, deliveries, callMsg] at ih ⊢
        exact ih _
    · simp [hs, deliveries]

/-- C1: for every finite decoded trace, the driver `parse_messages`
delivers each decoded Message Record to `Session.message` exactly once,
in exactly the order the decoder produces them: the sequence of
`Session.message` deliveries equals the decoded record sequence. -/
theorem parse_messages_delivers_in_order (σ : Type) (ops : SessionOps σ)
    (s : σ) (records : List (Nat × Msg)) (allow_shell : Bool)
    (cmds : List String) :
    deliveries (parse_messages ops s records allow_shell cmds).2 = records := by
  unfold parse_messages
  by_cases ha : allow_shell <;>
    simp [ha, deliveries_append, deliveries_pmLoop, deliveries_pmClose,
      deliveries_shell]

lemma pmClose_calls (ops : SessionOps σ) (known : List Nat) :
    ∀ (s : σ) (lt : Nat),
      (pmClose ops known s lt).2.map Prod.snd =
        known.map (fun c => Call.closeC c lt) := by
  induction known with
  | nil => intro s lt; simp [pmClose]
  | cons c rest ih => intro s lt; simp [pmClose, ih]

lemma shell_calls (ops : SessionOps σ) (cmds : List String) :
    ∀ (s : σ), ∀ e ∈ (interactive_shell ops cmds s).2,
      ∃ cmd, e.2 = Call.command cmd := by
  induction cmds with
  | nil => intro s e he; simp [interactive_shell] at he
  | cons cmd rest ih =>
    intro s e he
    simp only [interactive_shell] at he
    by_cases hs : ops.stopped s
    · by_cases hq : ops.quit s
      · simp [hs, hq] at he
      · simp only [hs, hq, if_true, if_false, Bool.false_eq_true,
          List.mem_cons] at he
        rcases he with h1 | h2
        · exact ⟨cmd, by simp [h1]⟩
        · exact ih _ _ h2
    · simp [hs] at he

lemma pmLoop_open_mem (ops : SessionOps σ) (records : List (Nat × Msg)) :
    ∀ (s : σ) (known : List Nat) (lt : Nat) (st : σ) (c : Nat)
      (iss : Option Bool) (t : Nat),
      (st, Call.openC c iss t) ∈ (pmLoop ops records s known lt).trace →
      c ∉ known ∧ ∃ m, List.find? (fun r => r.1 == c) records = some (c, m) ∧
        iss = roleHint m ∧ t = m.timestamp := by
  induction records with
  | nil => intro s known lt st c iss t h; simp [pmLoop] at h
  | cons r rest ih =>
    intro s known lt st c iss t h
    obtain ⟨c', m'⟩ := r
    by_cases hc : c' ∈ known
    · simp only [pmLoop, if_pos hc] at h
      rcases List.mem_cons.mp h with h1 | h2
      · simp at h1
      · obtain ⟨hck, m, hfind, hiss, ht⟩ := ih _ _ _ _ _ _ _ h2
        refine ⟨hck, m, ?_, hiss, ht⟩
        have hne : (c' == c) = false := by
          simp only [beq_eq_false_iff_ne]
          intro hEq; exact hck (hEq ▸ hc)
        simp [List.find?, hne, hfind]
    · simp only [pmLoop, if_neg hc] at h
      rcases List.mem_cons.mp h with h1 | h23
      · simp only [Prod.mk.injEq, Call.openC.injEq] at h1
        obtain ⟨hst, hcc, hiss, ht⟩ := h1
        subst hcc
        refine ⟨hc, m', ?_, hiss, ht⟩
        simp [List.find?]
      · rcases List.mem_cons.mp h23 with h2 | h3
        · simp at h2
        · obtain ⟨hck, m, hfind, hiss, ht⟩ := ih _ _ _ _ _ _ _ h3
          have hcnot : c ∉ known := fun hmem =>
            hck (List.mem_append.mpr (Or.inl hmem))
          have hne : (c' == c) = false := by
            simp only [beq_eq_false_iff_ne]
            intro hEq; exact hck (by simp [hEq])
          exact ⟨hcnot, m, by simp [List.find?, hne, hfind], hiss, ht⟩

/-- C3 amended: whenever `parse_messages` opens a connection, the
`is_server` hint is computed via `roleHint` from the connection's first
record only: `some (not sent)` when that first record is named
`get_registry`, and `none` otherwise — regardless of later messages. -/
theorem open_role_from_first_record {σ : Type} (ops : SessionOps σ)
    (s : σ) (records : List (Nat × Msg)) (allow_shell : Bool)
    (cmds : List String) (st : σ) (c : Nat) (iss : Option Bool) (t : Nat)
    (h : (st, Call.openC c iss t) ∈
      (parse_messages ops s records allow_shell cmds).2) :
    ∃ m, List.find? (fun r => r.1 == c) records = some (c, m) ∧
      iss = roleHint m ∧ t = m.timestamp := by
  unfold parse_messages at h
  have hclose : ∀ st' : σ,
      (st', Call.openC c iss t) ∉
        (pmClose ops (pmLoop ops records s [] 0).known
          (pmLoop ops records s [] 0).state
          (pmLoop ops records s [] 0).last_time).2 := by
    intro st' hmem
    have : Call.openC c iss t ∈
        (pmClose ops (pmLoop ops records s [] 0).known
          (pmLoop ops records s [] 0).state
          (pmLoop ops records s [] 0).last_time).2.map Prod.snd :=
      List.mem_map.mpr ⟨_, hmem, rfl⟩
    rw [pmClose_calls] at this
    obtain ⟨x, _, hx⟩ := List.mem_map.mp this
    simp at hx
  by_cases ha : allow_shell
  · simp only [ha, if_true, List.mem_append] at h
    rcases h with (h1 | h2) | h3
    · exact (pmLoop_open_mem ops records _ _ _ _ _ _ _ h1).2
    · exact absurd h2 (hclose st)
    · obtain ⟨cmd, hcmd⟩ := shell_calls ops cmds _ _ h3
      simp at hcmd
  · simp only [ha, if_false, Bool.false_eq_true, List.mem_append] at h
    rcases h with h1 | h2
    · exact (pmLoop_open_mem ops records _ _ _ _ _ _ _ h1).2
    · exact absurd h2 (hclose st)

/-- Sample record: a `get_registry` request sent at time 0. -/
def mReg : Msg := ⟨0, "get_registry", true, 1, []⟩

/-- Sample record: an undistinguished message sent at time 0. -/
def mFoo : Msg := ⟨0, "foo", true, 1, []⟩

/-- Sample record: a `get_registry` request sent at time 1. -/
def mRegLate : Msg := ⟨1, "get_registry", true, 1, []⟩

/-- C3 amended, witnessed at the one-record trace `[(1, mReg)]`. -/
theorem open_role_from_first_record_witness :
    (((), Call.openC 1 (some false) 0) ∈
      (parse_messages unitOps () [(1, mReg)] false []).2) ∧
    ∃ m, List.find? (fun r => r.1 == 1) [(1, mReg)] = some (1, m) ∧
      (some false : Option Bool) = roleHint m ∧ 0 = m.timestamp :=
  ⟨by decide,
   open_role_from_first_record unitOps () [(1, mReg)] false [] () 1
     (some false) 0 (by decide)⟩

/-- C3 counterexample: on the trace
`[(1, "foo"), (1, "get_registry" sent at t=1)]` a disambiguating
`get_registry` message is seen on connection 1, yet the connection is
opened with `is_server = none` (role Unknown), because the code inspects
only the connection's first message. -/
theorem role_not_from_later_get_registry :
    driverCalls unitOps () [(1, mFoo), (1, mRegLate)] false [] =
      [Call.openC 1 none 0, Call.msg 1 mFoo, Call.msg 1 mRegLate,
       Call.closeC 1 1] ∧
    (∃ p ∈ [(1, mFoo), (1, mRegLate)], p.2.name = "get_registry") := by
  refine ⟨by decide, ⟨(1, mRegLate), by decide, by decide⟩⟩

/-- C4: for the one-message input trace
`[(t=0, conn=1, sent, obj=1, "get_registry", [])]`, connection 1 is
opened with `is_server = some false` (role Client), with no operator
hint required. -/
theorem get_registry_scenario :
    driverCalls unitOps () [(1, mReg)] false [] =
      [Call.openC 1 (some false) 0, Call.msg 1 mReg, Call.closeC 1 0] := by
  decide

/-- Modelled from the spec: a session that reports being in the `Quit`
state at every moment (`quit()` constantly true), with all other
operations inert; used to observe whether the driving loop consults
`quit` between records. -/
def quitOps : SessionOps Unit :=
  ⟨fun _ _ _ => (), fun _ _ _ _ => (), fun _ _ _ => (),
   fun _ => false, fun _ => true, fun _ _ => ()⟩

/-- C5 counterexample: a session that is already in `Quit` (its `quit()`
query is constantly true) still has every record of the trace delivered
to `Session.message`: the driving loop of `parse_messages` does not
check `Quit` between records. -/
theorem quit_not_checked_between_records :
    quitOps.quit () = true ∧
    deliveries
      (parse_messages quitOps () [(1, mFoo), (1, mRegLate)] false []).2 =
      [(1, mFoo), (1, mRegLate)] := by
  decide

lemma pmLoop_quit_irrelevant {σ : Type}
    (msgF : σ → Nat → Msg → σ) (openF : σ → Nat → Option Bool → Nat → σ)
    (closeF : σ → Nat → Nat → σ) (stopF : σ → Bool) (q1 q2 : σ → Bool)
    (cmdF : σ → String → σ) (records : List (Nat × Msg)) :
    ∀ (s : σ) (known : List Nat) (lt : Nat),
      pmLoop ⟨msgF, openF, closeF, stopF, q1, cmdF⟩ records s known lt =
        pmLoop ⟨msgF, openF, closeF, stopF, q2, cmdF⟩ records s known lt := by
  induction records with
  | nil => intro s known lt; rfl
  | cons r rest ih =>
    intro s known lt
    obtain ⟨c, m⟩ := r
    by_cases hc : c ∈ known <;> simp [pmLoop, hc, ih]

lemma pmClose_quit_irrelevant {σ : Type}
    (msgF : σ → Nat → Msg → σ) (openF : σ → Nat → Option Bool → Nat → σ)
    (closeF : σ → Nat → Nat → σ) (stopF : σ → Bool) (q1 q2 : σ → Bool)
    (cmdF : σ → String → σ) (known : List Nat) :
    ∀ (s : σ) (lt : Nat),
      pmClose ⟨msgF, openF, closeF, stopF, q1, cmdF⟩ known s lt =
        pmClose ⟨msgF, openF, closeF, stopF, q2, cmdF⟩ known s lt := by
  induction known with
  | nil => intro s lt; rfl
  | cons c rest ih => intro s lt; simp [pmClose, ih]

/-- C5 amended: the record-consuming driver does not consult the `Quit`
state at all — `parse_messages` without the interactive shell behaves
identically for two sessions that differ only in their `quit` query, so
every record is delivered regardless of `Quit`; `Quit` is checked only
by `interactive_shell`, between operator commands, after the whole trace
has been consumed. -/
theorem parse_messages_ignores_quit {σ : Type}
    (msgF : σ → Nat → Msg → σ) (openF : σ → Nat → Option Bool → Nat → σ)
    (closeF : σ → Nat → Nat → σ) (stopF : σ → Bool) (q1 q2 : σ → Bool)
    (cmdF : σ → String → σ) (records : List (Nat × Msg)) (s : σ)
    (cmds : List String) :
    parse_messages ⟨msgF, openF, closeF, stopF, q1, cmdF⟩ s records false cmds =
      parse_messages ⟨msgF, openF, closeF, stopF, q2, cmdF⟩ s records false cmds := by
  unfold parse_messages
  simp only [pmLoop_quit_irrelevant msgF openF closeF stopF q1 q2 cmdF,
    pmClose_quit_irrelevant msgF openF closeF stopF q1 q2 cmdF,
    Bool.false_eq_true, if_false]

lemma pmLoop_no_command (ops : SessionOps σ) (records : List (Nat × Msg)) :
    ∀ (s : σ) (known : List Nat) (lt : Nat) (st : σ) (c : String),
      (st, Call.command c) ∉ (pmLoop ops records s known lt).trace := by
  induction records with
  | nil => intro s known lt st c h; simp [pmLoop] at h
  | cons r rest ih =>
    intro s known lt st c h
    obtain ⟨c', m'⟩ := r
    by_cases hc : c' ∈ known
    · simp only [pmLoop, if_pos hc, List.mem_cons] at h
      rcases h with h1 | h2
      · simp at h1
      · exact ih _ _ _ _ _ h2
    · simp only [pmLoop, if_neg hc, List.mem_cons] at h
      rcases h with h1 | h2 | h3
      · simp at h1
      · simp at h2
      · exact ih _ _ _ _ _ h3

lemma shell_command_state (ops : SessionOps σ) (cmds : List String) :
    ∀ (s st : σ) (c : String),
      (st, Call.command c) ∈ (interactive_shell ops cmds s).2 →
      ops.stopped st = true ∧ ops.quit st = false := by
  induction cmds with
  | nil => intro s st c h; simp [interactive_shell] at h
  | cons cmd rest ih =>
    intro s st c h
    simp only [interactive_shell] at h
    by_cases hs : ops.stopped s
    · by_cases hq : ops.quit s
      · simp [hs, hq] at h
      · simp only [hs, hq, if_true, if_false, Bool.false_eq_true,
          List.mem_cons] at h
        rcases h with h1 | h2
        · obtain ⟨hst, -⟩ := Prod.mk.injEq .. ▸ h1
          exact ⟨hst ▸ hs, hst ▸ (by simp [hq])⟩
        · exact ih _ _ _ h2
    · simp [hs] at h

/-- C6: the driver issues `session.command` only while the session is
`Stopped` and not `Quit`: every `command` call in a `parse_messages` run
(they all come from `interactive_shell`) is made at a state where
`stopped()` is true and `quit()` is false. -/
theorem command_only_when_stopped_not_quit {σ : Type} (ops : SessionOps σ)
    (s : σ) (records : List (Nat × Msg)) (allow_shell : Bool)
    (cmds : List String) (st : σ) (c : String)
    (h : (st, Call.command c) ∈
      (parse_messages ops s records allow_shell cmds).2) :
    ops.stopped st = true ∧ ops.quit st = false := by
  unfold parse_messages at h
  have hclose : ∀ st' : σ,
      (st', Call.command c) ∉
        (pmClose ops (pmLoop ops records s [] 0).known
          (pmLoop ops records s [] 0).state
          (pmLoop ops records s [] 0).last_time).2 := by
    intro st' hmem
    have : Call.command c ∈
        (pmClose ops (pmLoop ops records s [] 0).known
          (pmLoop ops records s [] 0).state
          (pmLoop ops records s [] 0).last_time).2.map Prod.snd :=
      List.mem_map.mpr ⟨_, hmem, rfl⟩
    rw [pmClose_calls] at this
    obtain ⟨x, _, hx⟩ := List.mem_map.mp this
    simp at hx
  by_cases ha : allow_shell
  · simp only [ha, if_true, List.mem_append] at h
    rcases h with (h1 | h2) | h3
    · exact absurd h1 (pmLoop_no_command ops records _ _ _ _ _)
    · exact absurd h2 (hclose st)
    · exact shell_command_state ops cmds _ _ _ h3
  · simp only [ha, if_false, Bool.false_eq_true, List.mem_append] at h
    rcases h with h1 | h2
    · exact absurd h1 (pmLoop_no_command ops records _ _ _ _ _)
    · exact absurd h2 (hclose st)

/-- Session state for the spec-modelled state machine: `Running`,
`Stopped`, `Quit`. -/
inductive SState where
  | running
  | paused
  | done
deriving DecidableEq, Repr

/-- Modelled from the spec: the session module is not under the source
tree; this is the minimal `Running`/`Stopped`/`Quit` state machine of
the spec's session, with `command` supporting `continue` and `quit`, and
message routing leaving the control state unchanged. -/
def specOps : SessionOps SState :=
  ⟨fun s _ _ => s, fun s _ _ _ => s, fun s _ _ => s,
   fun s => s == SState.paused,
   fun s => s == SState.done,
   fun s cmd =>
     if cmd = "quit" then SState.done
     else if cmd = "continue" then SState.running
     else s⟩

/-- C6 witnessed on a stopped session fed the `quit` command. -/
theorem command_only_when_stopped_not_quit_witness :
    ((SState.paused, Call.command "quit") ∈
      (parse_messages specOps SState.paused [(1, mReg)] true ["quit"]).2) ∧
    specOps.stopped SState.paused = true ∧
    specOps.quit SState.paused = false :=
  ⟨by decide,
   command_only_when_stopped_not_quit specOps SState.paused [(1, mReg)]
     true ["quit"] SState.paused "quit" (by decide)⟩

/-- Test whether a call is `open_connection` for connection `c`. -/
def isOpenOf (c : Nat) : Call → Bool
  | Call.openC c' _ _ => c' == c
  | _ => false

/-- Test whether a call is a `Session.message` delivery for connection `c`. -/
def isMsgOf (c : Nat) : Call → Bool
  | Call.msg c' _ => c' == c
  | _ => false

/-- Test whether a call is `close_connection` for connection `c`. -/
def isCloseOf (c : Nat) : Call → Bool
  | Call.closeC c' _ => c' == c
  | _ => false

/-- Test whether a call opens or delivers a message on connection `c`. -/
def touches (c : Nat) (e : Call) : Bool := isOpenOf c e || isMsgOf c e

@[simp] lemma isOpenOf_openC (c c' : Nat) (iss : Option Bool) (t : Nat) :
    isOpenOf c (Call.openC c' iss t) = (c' == c) := rfl

@[simp] lemma isOpenOf_msg (c c' : Nat) (m : Msg) :
    isOpenOf c (Call.msg c' m) = false := rfl

@[simp] lemma isOpenOf_closeC (c c' : Nat) (t : Nat) :
    isOpenOf c (Call.closeC c' t) = false := rfl

@[simp] lemma isOpenOf_command (c : Nat) (cmd : String) :
    isOpenOf c (Call.command cmd) = false := rfl

@[simp] lemma isMsgOf_openC (c c' : Nat) (iss : Option Bool) (t : Nat) :
    isMsgOf c (Call.openC c' iss t) = false := rfl

@[simp] lemma isMsgOf_msg (c c' : Nat) (m : Msg) :
    isMsgOf c (Call.msg c' m) = (c' == c) := rfl

@[simp] lemma isMsgOf_closeC (c c' : Nat) (t : Nat) :
    isMsgOf c (Call.closeC c' t) = false := rfl

@[simp] lemma isMsgOf_command (c : Nat) (cmd : String) :
    isMsgOf c (Call.command cmd) = false := rfl

@[simp] lemma isCloseOf_openC (c c' : Nat) (iss : Option Bool) (t : Nat) :
    isCloseOf c (Call.openC c' iss t) = false := rfl

@[simp] lemma isCloseOf_msg (c c' : Nat) (m : Msg) :
    isCloseOf c (Call.msg c' m) = false := rfl

@[simp] lemma isCloseOf_closeC (c c' : Nat) (t : Nat) :
    isCloseOf c (Call.closeC c' t) = (c' == c) := rfl

@[simp] lemma isCloseOf_command (c : Nat) (cmd : String) :
    isCloseOf c (Call.command cmd) = false := rfl

@[simp] lemma touches_eq (c : Nat) (e : Call) :
    touches c e = (isOpenOf c e || isMsgOf c e) := rfl

/-- Test whether a call opens, delivers a message on, or closes
connection `c`. -/
def involves (c : Nat) (e : Call) : Bool := touches c e || isCloseOf c e

@[simp] lemma involves_eq (c : Nat) (e : Call) :
    involves c e = (touches c e || isCloseOf c e) := rfl

lemma pmLoop_open_count (ops : SessionOps σ) (records : List (Nat × Msg)) :
    ∀ (s : σ) (known : List Nat) (lt : Nat) (c : Nat),
      ((pmLoop ops records s known lt).trace.map Prod.snd).countP (isOpenOf c) =
        if c ∈ known then 0 else if c ∈ records.map Prod.fst then 1 else 0 := by
  induction records with
  | nil => intro s known lt c; simp [pmLoop]
  | cons r rest ih =>
    intro s known lt c
    obtain ⟨c', m'⟩ := r
    by_cases hc : c' ∈ known
    · simp only [pmLoop, if_pos hc, List.map_cons, List.countP_cons,
        isOpenOf_msg, if_false, Bool.false_eq_true, Nat.add_zero]
      rw [ih]
      by_cases hck : c ∈ known
      · simp [hck]
      · have hcc : ¬ c = c' := fun h => hck (h ▸ hc)
        by_cases hmr : c ∈ List.map Prod.fst rest
        · simp [hck, hmr, List.mem_cons, hcc]
        · simp [hck, hmr, List.mem_cons, hcc]
    · simp only [pmLoop, if_neg hc, List.map_cons, List.countP_cons,
        isOpenOf_msg, isOpenOf_openC, if_false, Bool.false_eq_true,
        Nat.add_zero]
      rw [ih]
      by_cases hcc : c = c'
      · subst hcc
        have hmem : c ∈ known ++ [c] := by simp
        simp [hc, hmem]
      · have h1 : (c' == c) = false := by
          simp only [beq_eq_false_iff_ne]; exact fun h => hcc h.symm
        have h2 : (c ∈ known ++ [c']) ↔ (c ∈ known) := by
          simp [List.mem_append, hcc]
        by_cases hck : c ∈ known
        · simp [h1, h2, hck]
        · by_cases hmr : c ∈ List.map Prod.fst rest
          · simp [h1, h2, hck, hmr, List.mem_cons, hcc]
          · simp [h1, h2, hck, hmr, List.mem_cons, hcc]

lemma pmLoop_touches_msg (ops : SessionOps σ) (records : List (Nat × Msg))
    (s : σ) (known : List Nat) (lt : Nat) (c : Nat) (hck : c ∈ known) :
    ∀ e ∈ (pmLoop ops records s known lt).trace.map Prod.snd,
      touches c e = true → isMsgOf c e = true := by
  intro e he ht
  obtain ⟨p, hp, hpe⟩ := List.mem_map.mp he
  obtain ⟨st, e2⟩ := p
  simp only at hpe
  subst hpe
  cases e2 with
  | openC c'' iss t =>
    simp only [touches_eq, isOpenOf_openC, isMsgOf_openC, Bool.or_false] at ht
    have hcc : c'' = c := by simpa using ht
    have hnot := (pmLoop_open_mem ops records s known lt st c'' iss t hp).1
    rw [hcc] at hnot
    exact absurd hck hnot
  | msg c'' m =>
    simpa using ht
  | closeC c'' t => simp at ht
  | command cmd => simp at ht

lemma pmLoop_open_first (ops : SessionOps σ) (records : List (Nat × Msg)) :
    ∀ (s : σ) (known : List Nat) (lt : Nat) (c : Nat), c ∉ known →
      c ∈ records.map Prod.fst →
      ∃ iss t tl,
        ((pmLoop ops records s known lt).trace.map Prod.snd).filter (touches c) =
          Call.openC c iss t :: tl ∧ ∀ e ∈ tl, isMsgOf c e = true := by
  induction records with
  | nil => intro s known lt c _ hmem; simp at hmem
  | cons r rest ih =>
    intro s known lt c hck hmem
    obtain ⟨c', m'⟩ := r
    by_cases hc : c' ∈ known
    · have hcc : ¬ c = c' := fun h => hck (h ▸ hc)
      have hmem' : c ∈ rest.map Prod.fst := by
        simpa [hcc] using hmem
      have h1 : (c' == c) = false := by
        simp only [beq_eq_false_iff_ne]; exact fun h => hcc h.symm
      have hfilt : touches c (Call.msg c' m') = false := by simp [h1]
      simp only [pmLoop, if_pos hc, List.map_cons, List.filter_cons,
        hfilt, Bool.false_eq_true, if_false]
      exact ih _ _ _ _ hck hmem'
    · by_cases hcc : c = c'
      · subst hcc
        have ht1 : touches c (Call.openC c (roleHint m') m'.timestamp) = true := by
          simp
        have ht2 : touches c (Call.msg c m') = true := by simp
        simp only [pmLoop, if_neg hc, List.map_cons, List.filter_cons,
          ht1, ht2, if_true]
        refine ⟨roleHint m', m'.timestamp,
          Call.msg c m' ::
            ((pmLoop ops rest (ops.message (ops.open_connection s c (roleHint m') m'.timestamp) c m')
              (known ++ [c]) m'.timestamp).trace.map Prod.snd).filter (touches c),
          rfl, ?_⟩
        intro e he
        rcases List.mem_cons.mp he with h1 | h2
        · subst h1; simp
        · have hin : c ∈ known ++ [c] := by simp
          obtain ⟨he2, ht⟩ := List.mem_filter.mp h2
          exact pmLoop_touches_msg ops rest _ _ _ c hin e he2 ht
      · have h1 : (c' == c) = false := by
          simp only [beq_eq_false_iff_ne]; exact fun h => hcc h.symm
        have ht1 : touches c (Call.openC c' (roleHint m') m'.timestamp) = false := by
          simp [h1]
        have ht2 : touches c (Call.msg c' m') = false := by simp [h1]
        have hck' : c ∉ known ++ [c'] := by
          simp only [List.mem_append, List.mem_singleton]
          rintro (h | h)
          · exact hck h
          · exact hcc h
        have hmem' : c ∈ rest.map Prod.fst := by
          simpa [hcc] using hmem
        simp only [pmLoop, if_neg hc, List.map_cons, List.filter_cons,
          ht1, ht2, Bool.false_eq_true, if_false]
        exact ih _ _ _ _ hck' hmem'

/-- The `last_time` value after the message loop: the timestamp of the
last record, or the initial value when the trace is empty. -/
def finalTime (records : List (Nat × Msg)) (lt : Nat) : Nat :=
  match records.getLast? with
  | some r => r.2.timestamp
  | none => lt

lemma finalTime_cons (r : Nat × Msg) (rest : List (Nat × Msg)) (lt : Nat) :
    finalTime (r :: rest) lt = finalTime rest r.2.timestamp := by
  cases rest with
  | nil => simp [finalTime]
  | cons x xs =>
    cases h : (x :: xs).getLast? with
    | none =>
      have hs := (List.getLast?_isSome (l := x :: xs)).mpr (by simp)
      rw [h] at hs
      simp at hs
    | some r' => simp [finalTime, List.getLast?_cons_cons, h]

lemma pmLoop_last_time (ops : SessionOps σ) (records : List (Nat × Msg)) :
    ∀ (s : σ) (known : List Nat) (lt : Nat),
      (pmLoop ops records s known lt).last_time = finalTime records lt := by
  induction records with
  | nil => intro s known lt; simp [pmLoop, finalTime]
  | cons r rest ih =>
    intro s known lt
    obtain ⟨c, m⟩ := r
    rw [finalTime_cons]
    by_cases hc : c ∈ known <;>
      simp only [pmLoop, if_pos, if_neg, hc] <;> exact ih _ _ _

lemma pmLoop_mem_known (ops : SessionOps σ) (records : List (Nat × Msg)) :
    ∀ (s : σ) (known : List Nat) (lt : Nat) (c : Nat),
      c ∈ (pmLoop ops records s known lt).known ↔
        c ∈ known ∨ c ∈ records.map Prod.fst := by
  induction records with
  | nil => intro s known lt c; simp [pmLoop]
  | cons r rest ih =>
    intro s known lt c
    obtain ⟨c', m'⟩ := r
    by_cases hc : c' ∈ known
    · simp only [pmLoop, if_pos hc]
      rw [ih]
      simp only [List.map_cons, List.mem_cons]
      constructor
      · rintro (h | h)
        · exact Or.inl h
        · exact Or.inr (Or.inr h)
      · rintro (h | h | h)
        · exact Or.inl h
        · exact Or.inl (h ▸ hc)
        · exact Or.inr h
    · simp only [pmLoop, if_neg hc]
      rw [ih]
      simp only [List.mem_append, List.mem_singleton, List.map_cons,
        List.mem_cons]
      tauto

lemma pmLoop_known_nodup (ops : SessionOps σ) (records : List (Nat × Msg)) :
    ∀ (s : σ) (known : List Nat) (lt : Nat), known.Nodup →
      (pmLoop ops records s known lt).known.Nodup := by
  induction records with
  | nil => intro s known lt h; simpa [pmLoop] using h
  | cons r rest ih =>
    intro s known lt h
    obtain ⟨c', m'⟩ := r
    by_cases hc : c' ∈ known
    · simp only [pmLoop, if_pos hc]
      exact ih _ _ _ h
    · simp only [pmLoop, if_neg hc]
      refine ih _ _ _ ?_
      simp [List.nodup_append, h, hc]

lemma nodup_filter_beq (c : Nat) :
    ∀ (l : List Nat), l.Nodup → c ∈ l →
      l.filter (fun x => x == c) = [c] := by
  intro l
  induction l with
  | nil => intro _ h; simp at h
  | cons a l ih =>
    intro hnd hmem
    have hnd' := List.nodup_cons.mp hnd
    by_cases hac : a = c
    · subst hac
      have : l.filter (fun x => x == a) = [] := by
        rw [List.filter_eq_nil_iff]
        intro x hx
        simp only [beq_iff_eq]
        intro hxa
        exact hnd'.1 (hxa ▸ hx)
      simp [List.filter_cons, this]
    · have hmem' : c ∈ l := by
        rcases List.mem_cons.mp hmem with h | h
        · exact absurd h.symm hac
        · exact h
      have hbeq : (a == c) = false := by
        simp only [beq_eq_false_iff_ne]; exact hac
      simp [List.filter_cons, hbeq, ih hnd'.2 hmem']

lemma pmLoop_calls_shape (ops : SessionOps σ) (records : List (Nat × Msg)) :
    ∀ (s : σ) (known : List Nat) (lt : Nat) (e : Call),
      e ∈ (pmLoop ops records s known lt).trace.map Prod.snd →
      (∃ c iss t, e = Call.openC c iss t) ∨ ∃ c m, e = Call.msg c m := by
  induction records with
  | nil => intro s known lt e he; simp [pmLoop] at he
  | cons r rest ih =>
    intro s known lt e he
    obtain ⟨c', m'⟩ := r
    by_cases hc : c' ∈ known
    · simp only [pmLoop, if_pos hc, List.map_cons, List.mem_cons] at he
      rcases he with h1 | h2
      · exact Or.inr ⟨c', m', h1⟩
      · exact ih _ _ _ _ h2
    · simp only [pmLoop, if_neg hc, List.map_cons, List.mem_cons] at he
      rcases he with h1 | h2 | h3
      · exact Or.inl ⟨c', roleHint m', m'.timestamp, h1⟩
      · exact Or.inr ⟨c', m', h2⟩
      · exact ih _ _ _ _ h3

lemma shell_calls_snd (ops : SessionOps σ) (cmds : List String) (s : σ)
    (e : Call) (he : e ∈ (interactive_shell ops cmds s).2.map Prod.snd) :
    ∃ cmd, e = Call.command cmd := by
  obtain ⟨p, hp, hpe⟩ := List.mem_map.mp he
  obtain ⟨cmd, h⟩ := shell_calls ops cmds s p hp
  rw [hpe] at h
  exact ⟨cmd, h⟩

lemma calls_countP_zero {p : Call → Bool} (l : List Call)
    (h : ∀ e ∈ l, p e = false) : l.countP p = 0 := by
  apply List.countP_eq_zero.mpr
  intro a ha
  simp [h a ha]

lemma calls_filter_nil {p : Call → Bool} (l : List Call)
    (h : ∀ e ∈ l, p e = false) : l.filter p = [] := by
  apply List.filter_eq_nil_iff.mpr
  intro a ha
  simp [h a ha]

lemma pmClose_filter_close (ops : SessionOps σ) (known : List Nat) (s : σ)
    (lt : Nat) (c : Nat) (hnd : known.Nodup) (hmem : c ∈ known) :
    ((pmClose ops known s lt).2.map Prod.snd).filter (isCloseOf c) =
      [Call.closeC c lt] := by
  rw [pmClose_calls]
  have hfm : (known.map (fun x => Call.closeC x lt)).filter (isCloseOf c) =
      (known.filter (fun x => isCloseOf c (Call.closeC x lt))).map
        (fun x => Call.closeC x lt) := by
    rw [List.filter_map]
    rfl
  rw [hfm]
  have : (fun x => isCloseOf c (Call.closeC x lt)) = (fun x : Nat => x == c) := by
    funext x; rfl
  rw [this, nodup_filter_beq c known hnd hmem]
  rfl

lemma pmClose_no_open (ops : SessionOps σ) (known : List Nat) (s : σ)
    (lt : Nat) (e : Call) (he : e ∈ (pmClose ops known s lt).2.map Prod.snd) :
    ∃ c', e = Call.closeC c' lt := by
  rw [pmClose_calls] at he
  obtain ⟨x, _, hx⟩ := List.mem_map.mp he
  exact ⟨x, hx.symm⟩

/-- C9: for every finite trace, the driver opens each distinct connection
id exactly once, before any `Session.message` delivery for that id;
after the trace ends it closes each opened connection exactly once, the
close coming after every message delivery for that id — the calls
involving the id form `open :: messages ++ [close]` — and indeed after
the whole message phase, since the full call sequence splits into an
open/message body, then a block of closes, then shell commands; every
close carries the timestamp of the last record of the whole trace. -/
theorem driver_open_close_protocol {σ : Type} (ops : SessionOps σ) (s : σ)
    (records : List (Nat × Msg)) (allow_shell : Bool) (cmds : List String)
    (c : Nat) (hc : c ∈ records.map Prod.fst) :
    (driverCalls ops s records allow_shell cmds).countP (isOpenOf c) = 1 ∧
    (∃ last, records.getLast? = some last ∧
      (driverCalls ops s records allow_shell cmds).filter (isCloseOf c) =
        [Call.closeC c last.2.timestamp] ∧
      ∃ iss t tl,
        (driverCalls ops s records allow_shell cmds).filter (involves c) =
          Call.openC c iss t :: (tl ++ [Call.closeC c last.2.timestamp]) ∧
        ∀ e ∈ tl, isMsgOf c e = true) ∧
    (∃ body closes sh,
      driverCalls ops s records allow_shell cmds = body ++ closes ++ sh ∧
      (∀ e ∈ body,
        (∃ a b d, e = Call.openC a b d) ∨ ∃ a m, e = Call.msg a m) ∧
      (∀ e ∈ closes, ∃ a t, e = Call.closeC a t) ∧
      (∀ e ∈ sh, ∃ cmd, e = Call.command cmd)) := by
  have hne : records ≠ [] := by rintro rfl; simp at hc
  obtain ⟨last, hlast⟩ : ∃ last, records.getLast? = some last := by
    cases h : records.getLast? with
    | none =>
      have hs := (List.getLast?_isSome (l := records)).mpr hne
      rw [h] at hs
      simp at hs
    | some r => exact ⟨r, rfl⟩
  have hft : finalTime records 0 = last.2.timestamp := by
    simp [finalTime, hlast]
  have hlt : (pmLoop ops records s [] 0).last_time = last.2.timestamp := by
    rw [pmLoop_last_time]; exact hft
  have hknd : (pmLoop ops records s [] 0).known.Nodup :=
    pmLoop_known_nodup ops records s [] 0 List.nodup_nil
  have hkm : c ∈ (pmLoop ops records s [] 0).known :=
    (pmLoop_mem_known ops records s [] 0 c).mpr (Or.inr hc)
  have hopenc :
      ((pmLoop ops records s [] 0).trace.map Prod.snd).countP (isOpenOf c) = 1 := by
    rw [pmLoop_open_count]
    simp [hc]
  have hopenf := pmLoop_open_first ops records s [] 0 c (by simp) hc
  have hloopclose :
      ((pmLoop ops records s [] 0).trace.map Prod.snd).filter (isCloseOf c) = [] := by
    apply calls_filter_nil
    intro e he
    rcases pmLoop_calls_shape ops records s [] 0 e he with ⟨a, b, d, h⟩ | ⟨a, b, h⟩ <;>
      simp [h]
  have hclosecalls := pmClose_filter_close ops (pmLoop ops records s [] 0).known
    (pmLoop ops records s [] 0).state (pmLoop ops records s [] 0).last_time c
    hknd hkm
  have hcloseopen : ∀ e ∈ ((pmClose ops (pmLoop ops records s [] 0).known
      (pmLoop ops records s [] 0).state
      (pmLoop ops records s [] 0).last_time).2.map Prod.snd),
      isOpenOf c e = false ∧ touches c e = false := by
    intro e he
    obtain ⟨c', h⟩ := pmClose_no_open ops _ _ _ e he
    simp [h]
  have hloopinv :
      ((pmLoop ops records s [] 0).trace.map Prod.snd).filter (involves c) =
        ((pmLoop ops records s [] 0).trace.map Prod.snd).filter (touches c) := by
    apply List.filter_congr
    intro e he
    rcases pmLoop_calls_shape ops records s [] 0 e he with ⟨a, b, d, h⟩ | ⟨a, b, h⟩ <;>
      simp [h]
  have hcloseinv :
      ((pmClose ops (pmLoop ops records s [] 0).known
        (pmLoop ops records s [] 0).state
        (pmLoop ops records s [] 0).last_time).2.map Prod.snd).filter (involves c) =
      ((pmClose ops (pmLoop ops records s [] 0).known
        (pmLoop ops records s [] 0).state
        (pmLoop ops records s [] 0).last_time).2.map Prod.snd).filter (isCloseOf c) := by
    apply List.filter_congr
    intro e he
    obtain ⟨c', h⟩ := pmClose_no_open ops _ _ _ e he
    simp [h]
  have hcloseshape : ∀ e ∈ ((pmClose ops (pmLoop ops records s [] 0).known
      (pmLoop ops records s [] 0).state
      (pmLoop ops records s [] 0).last_time).2.map Prod.snd),
      ∃ a t, e = Call.closeC a t := by
    intro e he
    obtain ⟨c', h⟩ := pmClose_no_open ops _ _ _ e he
    exact ⟨c', _, h⟩
  by_cases ha : allow_shell
  · have hshell : ∀ e ∈ ((interactive_shell ops cmds
        (pmClose ops (pmLoop ops records s [] 0).known
          (pmLoop ops records s [] 0).state
          (pmLoop ops records s [] 0).last_time).1).2.map Prod.snd),
        isOpenOf c e = false ∧ isCloseOf c e = false ∧
          involves c e = false := by
      intro e he
      obtain ⟨cmd, h⟩ := shell_calls_snd ops cmds _ e he
      simp [h]
    have hcalls : driverCalls ops s records allow_shell cmds =
        (pmLoop ops records s [] 0).trace.map Prod.snd ++
        ((pmClose ops (pmLoop ops records s [] 0).known
          (pmLoop ops records s [] 0).state
          (pmLoop ops records s [] 0).last_time).2.map Prod.snd) ++
        ((interactive_shell ops cmds
          (pmClose ops (pmLoop ops records s [] 0).known
            (pmLoop ops records s [] 0).state
            (pmLoop ops records s [] 0).last_time).1).2.map Prod.snd) := by
      simp [driverCalls, parse_messages, ha]
    refine ⟨?_, ⟨last, hlast, ?_, ?_⟩, ?_⟩
    · rw [hcalls]
      simp only [List.countP_append]
      rw [hopenc, calls_countP_zero _ (fun e he => (hcloseopen e he).1),
        calls_countP_zero _ (fun e he => (hshell e he).1)]
    · rw [hcalls]
      simp only [List.filter_append]
      rw [hloopclose, hclosecalls,
        calls_filter_nil _ (fun e he => (hshell e he).2.1), hlt]
      simp
    · obtain ⟨iss, t, tl, hfil, htl⟩ := hopenf
      refine ⟨iss, t, tl, ?_, htl⟩
      rw [hcalls]
      simp only [List.filter_append]
      rw [hloopinv, hfil, hcloseinv, hclosecalls,
        calls_filter_nil _ (fun e he => (hshell e he).2.2), hlt]
      simp
    · exact ⟨_, _, _, hcalls,
        fun e he => pmLoop_calls_shape ops records s [] 0 e he,
        hcloseshape,
        fun e he => shell_calls_snd ops cmds _ e he⟩
  · have hcalls : driverCalls ops s records allow_shell cmds =
        (pmLoop ops records s [] 0).trace.map Prod.snd ++
        ((pmClose ops (pmLoop ops records s [] 0).known
          (pmLoop ops records s [] 0).state
          (pmLoop ops records s [] 0).last_time).2.map Prod.snd) := by
      simp [driverCalls, parse_messages, ha]
    refine ⟨?_, ⟨last, hlast, ?_, ?_⟩, ?_⟩
    · rw [hcalls]
      simp only [List.countP_append]
      rw [hopenc, calls_countP_zero _ (fun e he => (hcloseopen e he).1)]
    · rw [hcalls]
      simp only [List.filter_append]
      rw [hloopclose, hclosecalls, hlt]
      simp
    · obtain ⟨iss, t, tl, hfil, htl⟩ := hopenf
      refine ⟨iss, t, tl, ?_, htl⟩
      rw [hcalls]
      simp only [List.filter_append]
      rw [hloopinv, hfil, hcloseinv, hclosecalls, hlt]
      simp
    · refine ⟨(pmLoop ops records s [] 0).trace.map Prod.snd,
        ((pmClose ops (pmLoop ops records s [] 0).known
          (pmLoop ops records s [] 0).state
          (pmLoop ops records s [] 0).last_time).2.map Prod.snd), [], ?_,
        fun e he => pmLoop_calls_shape ops records s [] 0 e he,
        hcloseshape,
        fun e he => absurd he (List.not_mem_nil e)⟩
      rw [hcalls]
      simp

/-- C9 witnessed on a two-connection trace. -/
theorem driver_open_close_protocol_witness :
    (1 ∈ ([(1, mFoo), (2, mReg), (1, mRegLate)].map Prod.fst)) ∧
    ((driverCalls unitOps () [(1, mFoo), (2, mReg), (1, mRegLate)] false []).countP
        (isOpenOf 1) = 1 ∧
      (∃ last, [(1, mFoo), (2, mReg), (1, mRegLate)].getLast? = some last ∧
        (driverCalls unitOps () [(1, mFoo), (2, mReg), (1, mRegLate)] false []).filter
            (isCloseOf 1) = [Call.closeC 1 last.2.timestamp] ∧
        ∃ iss t tl,
          (driverCalls unitOps () [(1, mFoo), (2, mReg), (1, mRegLate)] false []).filter
              (involves 1) =
            Call.openC 1 iss t :: (tl ++ [Call.closeC 1 last.2.timestamp]) ∧
          ∀ e ∈ tl, isMsgOf 1 e = true) ∧
      (∃ body closes sh,
        driverCalls unitOps () [(1, mFoo), (2, mReg), (1, mRegLate)] false [] =
          body ++ closes ++ sh ∧
        (∀ e ∈ body,
          (∃ a b d, e = Call.openC a b d) ∨ ∃ a m, e = Call.msg a m) ∧
        (∀ e ∈ closes, ∃ a t, e = Call.closeC a t) ∧
        (∀ e ∈ sh, ∃ cmd, e = Call.command cmd))) :=
  ⟨by decide,
   driver_open_close_protocol unitOps () [(1, mFoo), (2, mReg), (1, mRegLate)]
     false [] 1 (by decide)⟩

/-- An output-stream event visible to the operator (`output.log`,
`output.warn`, `output.error`). -/
inductive OutEvent where
  | log (s : String)
  | warn (s : String)
  | error (s : String)
deriving DecidableEq, Repr

/-- Modelled from the spec: the matcher module (`matcher.always`,
`matcher.never`, `matcher.parse`, `simplify`, `str`) is not under the
source tree; it is abstracted as a matcher type `M` with those
operations, where a failing `parse` yields the error that `main`
catches and reports (the spec's `SyntaxError`: bad matcher text is
reported to the operator, the query rejected, the prior matcher
unchanged). -/
structure MatcherOps (M : Type) where
  always : M
  never : M
  parse : String → Except String M
  simplify : M → M
  toStr : M → String

/-- Python truthiness of an optional string: `None` and the empty string
are falsy. -/
def truthy (o : Option String) : Bool :=
  match o with
  | none => false
  | some s => s != ""

/-- The filter-matcher selection in `main`: default `matcher.always`,
replaced by `matcher.parse(args.f).simplify()` when a filter query is
supplied and parses; on a parse failure the error is reported and the
default stays. -/
def computeFilter (mo : MatcherOps M) (f : Option String) : M × List OutEvent :=
  match f with
  | some q =>
    if q ≠ "" then
      match mo.parse q with
      | Except.ok m =>
        (mo.simplify m,
         [OutEvent.log ("Filter matcher: " ++ mo.toStr (mo.simplify m))])
      | Except.error e => (mo.always, [OutEvent.error e])
    else (mo.always, [])
  | none => (mo.always, [])

/-- The stop-matcher selection in `main`: default `matcher.never`,
replaced by `matcher.parse(args.b).simplify()` when a break query is
supplied and parses; on a parse failure the error is reported and the
default stays. -/
def computeStop (mo : MatcherOps M) (b : Option String) : M × List OutEvent :=
  match b with
  | some q =>
    if q ≠ "" then
      match mo.parse q with
      | Except.ok m =>
        (mo.simplify m,
         [OutEvent.log ("Break matcher: " ++ mo.toStr (mo.simplify m))])
      | Except.error e => (mo.never, [OutEvent.error e])
    else (mo.never, [])
  | none => (mo.never, [])

/-- `file_input_main(session, file_path)`: log the opening, then either
parse the decoded contents with the shell allowed, or — when the file
does not exist (`FileNotFoundError`) — report `<path> not found` and
return normally.  The filesystem-and-decoder boundary is modelled as a
partial map from paths to decoded record lists. -/
def file_input_main (ops : SessionOps σ) (fs : String → Option (List (Nat × Msg)))
    (s : σ) (path : String) (cmds : List String) :
    σ × List OutEvent × List (σ × Call) :=
  match fs path with
  | some records =>
    let r := parse_messages ops s records true cmds
    (r.1, [OutEvent.log ("Opening " ++ path)], r.2)
  | none =>
    (s, [OutEvent.log ("Opening " ++ path),
         OutEvent.error (path ++ " not found")], [])

/-- The stdin branch at the end of `main`: warn when a break query was
supplied, then `piped_input_main` (log, then `parse_messages` with the
shell disallowed). -/
def piped_main_branch (ops : SessionOps σ) (session : σ) (b : Option String)
    (stdin : List (Nat × Msg)) : List OutEvent × σ × List (σ × Call) :=
  let w := if truthy b then
      [OutEvent.warn "Ignoring stop matcher when stdin is used for messages"]
    else []
  let r := parse_messages ops session stdin false []
  (w ++ [OutEvent.log "Getting input piped from stdin"], r.1, r.2)

/-- The command-line arguments of `main` relevant to matcher selection
and input choice. -/
structure Args where
  f : Option String
  b : Option String
  path : Option String
deriving Repr

/-- The observable outcome of `main` past argument parsing: the two
matchers the session is constructed with, the operator-visible events,
and the driver's session-call trace. -/
structure MainResult (M : Type) (σ : Type) where
  filter : M
  stop : M
  events : List OutEvent
  final : σ
  calls : List (σ × Call)

/-- The tail of `main` (outside GDB): select the filter and stop
matchers, construct the session from them, then drive it either from
the `--load` file or from stdin. -/
def main_model (mo : MatcherOps M) (ops : SessionOps σ) (mkSession : M → M → σ)
    (fs : String → Option (List (Nat × Msg))) (stdin : List (Nat × Msg))
    (cmds : List String) (args : Args) : MainResult M σ :=
  let fr := computeFilter mo args.f
  let br := computeStop mo args.b
  let session := mkSession fr.1 br.1
  match args.path with
  | some p =>
    if p ≠ "" then
      let r := file_input_main ops fs session p cmds
      ⟨fr.1, br.1, fr.2 ++ br.2 ++ r.2.1, r.1, r.2.2⟩
    else
      let r := piped_main_branch ops session args.b stdin
      ⟨fr.1, br.1, fr.2 ++ br.2 ++ r.1, r.2.1, r.2.2⟩
  | none =>
    let r := piped_main_branch ops session args.b stdin
    ⟨fr.1, br.1, fr.2 ++ br.2 ++ r.1, r.2.1, r.2.2⟩

/-- C7: when no filter query is supplied the session is constructed with
the filter matcher `always`, and when no break query is supplied it is
constructed with the stop matcher `never`. -/
theorem default_matchers {M σ : Type} (mo : MatcherOps M) (ops : SessionOps σ)
    (mk : M → M → σ) (fs : String → Option (List (Nat × Msg)))
    (stdin : List (Nat × Msg)) (cmds : List String) (path : Option String) :
    (∀ b, (main_model mo ops mk fs stdin cmds ⟨none, b, path⟩).filter = mo.always) ∧
    (∀ f, (main_model mo ops mk fs stdin cmds ⟨f, none, path⟩).stop = mo.never) := by
  constructor
  · intro b
    cases path with
    | none => simp [main_model, computeFilter]
    | some p =>
      by_cases hp : p ≠ "" <;> simp [main_model, computeFilter, hp]
  · intro f
    cases path with
    | none => simp [main_model, computeStop]
    | some p =>
      by_cases hp : p ≠ "" <;> simp [main_model, computeStop, hp]

/-- C2: a filter or break query that fails to parse is reported as an
error, the query is rejected, and the session is constructed with the
default matchers (`always` for filter, `never` for stop); processing of
the input continues as if no query had been given. -/
theorem bad_query_keeps_default {M σ : Type} (mo : MatcherOps M)
    (ops : SessionOps σ) (mk : M → M → σ)
    (fs : String → Option (List (Nat × Msg))) (stdin : List (Nat × Msg))
    (cmds : List String) (q e : String) (hq : q ≠ "")
    (hp : mo.parse q = Except.error e) :
    computeFilter mo (some q) = (mo.always, [OutEvent.error e]) ∧
    computeStop mo (some q) = (mo.never, [OutEvent.error e]) ∧
    (main_model mo ops mk fs stdin cmds ⟨some q, some q, none⟩).filter = mo.always ∧
    (main_model mo ops mk fs stdin cmds ⟨some q, some q, none⟩).stop = mo.never ∧
    OutEvent.error e ∈ (main_model mo ops mk fs stdin cmds ⟨some q, some q, none⟩).events ∧
    (main_model mo ops mk fs stdin cmds ⟨some q, some q, none⟩).calls =
      (parse_messages ops (mk mo.always mo.never) stdin false []).2 := by
  refine ⟨?_, ?_, ?_, ?_, ?_, ?_⟩ <;>
    simp [main_model, computeFilter, computeStop, piped_main_branch, hq, hp]

/-- C8: a `--load` path that does not exist is reported (`<path> not
found`) and `file_input_main` returns normally with the session
untouched and no records processed; the failure is not fatal. -/
theorem missing_file_reported_not_fatal {σ : Type} (ops : SessionOps σ)
    (fs : String → Option (List (Nat × Msg))) (s : σ) (path : String)
    (cmds : List String) (h : fs path = none) :
    file_input_main ops fs s path cmds =
      (s, [OutEvent.log ("Opening " ++ path),
           OutEvent.error (path ++ " not found")], []) := by
  simp [file_input_main, h]

/-- C8 witnessed on an empty filesystem. -/
theorem missing_file_reported_not_fatal_witness :
    ((fun _ : String => (none : Option (List (Nat × Msg)))) "trace.log" = none) ∧
    file_input_main unitOps (fun _ => none) () "trace.log" [] =
      ((), [OutEvent.log "Opening trace.log",
            OutEvent.error "trace.log not found"], []) :=
  ⟨rfl, missing_file_reported_not_fatal unitOps (fun _ => none) () "trace.log"
    [] rfl⟩

/-- C10: with messages read from stdin and a break query supplied, the
driver warns that the stop matcher is ignored, yet the session it drives
was constructed with the parsed-and-simplified stop matcher, not with
`never`. -/
theorem stdin_warns_but_stop_matcher_kept {M σ : Type} (mo : MatcherOps M)
    (ops : SessionOps σ) (mk : M → M → σ)
    (fs : String → Option (List (Nat × Msg))) (stdin : List (Nat × Msg))
    (cmds : List String) (f : Option String) (q : String) (m : M)
    (hq : q ≠ "") (hp : mo.parse q = Except.ok m)
    (hs : mo.simplify m ≠ mo.never) :
    OutEvent.warn "Ignoring stop matcher when stdin is used for messages" ∈
      (main_model mo ops mk fs stdin cmds ⟨f, some q, none⟩).events ∧
    (main_model mo ops mk fs stdin cmds ⟨f, some q, none⟩).stop = mo.simplify m ∧
    (main_model mo ops mk fs stdin cmds ⟨f, some q, none⟩).stop ≠ mo.never ∧
    (main_model mo ops mk fs stdin cmds ⟨f, some q, none⟩).calls =
      (parse_messages ops (mk (computeFilter mo f).1 (mo.simplify m))
        stdin false []).2 := by
  have ht : truthy (some q) = true := by
    simp [truthy]; exact hq
  refine ⟨?_, ?_, ?_, ?_⟩ <;>
    simp [main_model, computeStop, piped_main_branch, hq, hp, ht, hs]

/-- A small concrete matcher implementation for witnesses: parsing
fails exactly on the query `"("`. -/
inductive TestM where
  | always
  | never
  | atom (s : String)
deriving DecidableEq, Repr

/-- Modelled from the spec: concrete matcher operations over `TestM`,
with a `SyntaxError`-style failure on the unbalanced query `"("`. -/
def testMO : MatcherOps TestM :=
  ⟨TestM.always, TestM.never,
   fun q => if q = "(" then Except.error "Unmatched (" else Except.ok (TestM.atom q),
   fun m => m,
   fun m =>
     match m with
     | TestM.always => "*"
     | TestM.never => "! *"
     | TestM.atom s => s⟩

/-- C2 witnessed on the unparsable query `"("`. -/
theorem bad_query_keeps_default_witness :
    (("(" : String) ≠ "") ∧ testMO.parse "(" = Except.error "Unmatched (" ∧
    (computeFilter testMO (some "(") =
        (testMO.always, [OutEvent.error "Unmatched ("]) ∧
      computeStop testMO (some "(") =
        (testMO.never, [OutEvent.error "Unmatched ("]) ∧
      (main_model testMO unitOps (fun _ _ => ()) (fun _ => none) [(1, mReg)] []
        ⟨some "(", some "(", none⟩).filter = testMO.always ∧
      (main_model testMO unitOps (fun _ _ => ()) (fun _ => none) [(1, mReg)] []
        ⟨some "(", some "(", none⟩).stop = testMO.never ∧
      OutEvent.error "Unmatched (" ∈
        (main_model testMO unitOps (fun _ _ => ()) (fun _ => none) [(1, mReg)] []
          ⟨some "(", some "(", none⟩).events ∧
      (main_model testMO unitOps (fun _ _ => ()) (fun _ => none) [(1, mReg)] []
        ⟨some "(", some "(", none⟩).calls =
        (parse_messages unitOps ((fun _ _ => ()) testMO.always testMO.never)
          [(1, mReg)] false []).2) :=
  ⟨by decide, by simp [testMO],
   bad_query_keeps_default testMO unitOps (fun _ _ => ()) (fun _ => none)
     [(1, mReg)] [] "(" "Unmatched (" (by decide) (by simp [testMO])⟩

/-- C10 witnessed on the break query `"wl_surface"`. -/
theorem stdin_warns_but_stop_matcher_kept_witness :
    (("wl_surface" : String) ≠ "") ∧
    testMO.parse "wl_surface" = Except.ok (TestM.atom "wl_surface") ∧
    testMO.simplify (TestM.atom "wl_surface") ≠ testMO.never ∧
    (OutEvent.warn "Ignoring stop matcher when stdin is used for messages" ∈
        (main_model testMO unitOps (fun _ _ => ()) (fun _ => none) [(1, mReg)] []
          ⟨none, some "wl_surface", none⟩).events ∧
      (main_model testMO unitOps (fun _ _ => ()) (fun _ => none) [(1, mReg)] []
        ⟨none, some "wl_surface", none⟩).stop =
        testMO.simplify (TestM.atom "wl_surface") ∧
      (main_model testMO unitOps (fun _ _ => ()) (fun _ => none) [(1, mReg)] []
        ⟨none, some "wl_surface", none⟩).stop ≠ testMO.never ∧
      (main_model testMO unitOps (fun _ _ => ()) (fun _ => none) [(1, mReg)] []
        ⟨none, some "wl_surface", none⟩).calls =
        (parse_messages unitOps
          ((fun _ _ => ()) (computeFilter testMO none).1
            (testMO.simplify (TestM.atom "wl_surface")))
          [(1, mReg)] false []).2) :=
  ⟨by decide, by simp [testMO], by simp [testMO],
   stdin_warns_but_stop_matcher_kept testMO unitOps (fun _ _ => ())
     (fun _ => none) [(1, mReg)] [] none "wl_surface" (TestM.atom "wl_surface")
     (by decide) (by simp [testMO]) (by simp [testMO])⟩

end WaylandDebug
